import Mathlib

/-!
Verification of the content-to-artifact pipeline of the
`chrome-extension-get-page-information` extension.

The JavaScript sources (`popup.js`, `src/background.js`) are embedded
shallowly: strings are Lean `String`s (worked on through their `.data`
character lists), timestamps are `Nat` (ISO-8601 strings compare exactly like
the underlying instants, and the source only ever compares them through
`new Date(_) - new Date(_)`), asynchronous effects (downloads, notifications,
storage writes, runtime messages) are recorded explicitly in result
structures, and the outcomes of remote `fetch` calls are supplied as oracles.
-/

namespace PageInfo

/-! ## Extraction history store (`popup.js` `addExtractedUrl`,
`src/background.js` `addExtractedUrl`; the two copies are identical). -/

/-- One history entry: `{ url, firstExtracted, lastExtracted, count }`. -/
structure Entry where
  url : String
  firstExtracted : Nat
  lastExtracted : Nat
  count : Nat
  deriving DecidableEq, Repr

/-- In-place update of the first entry whose `url` matches, mirroring
`urls[existingIndex].lastExtracted = timestamp;
 urls[existingIndex].count = (urls[existingIndex].count || 1) + 1;`
(`findIndex` returns the first match; `|| 1` treats the falsy count `0`
as `1`). -/
def bumpFirst (url : String) (timestamp : Nat) : List Entry → List Entry
  | [] => []
  | e :: rest =>
    if e.url = url then
      { e with lastExtracted := timestamp,
               count := (if e.count = 0 then 1 else e.count) + 1 } :: rest
    else
      e :: bumpFirst url timestamp rest

/-- Stable insertion step for sorting by `lastExtracted` descending; the
source uses the (stable) `Array.prototype.sort` with comparator
`(a, b) => new Date(b.lastExtracted) - new Date(a.lastExtracted)`. -/
def insertDesc (e : Entry) : List Entry → List Entry
  | [] => [e]
  | f :: rest =>
    if f.lastExtracted ≤ e.lastExtracted then e :: f :: rest
    else f :: insertDesc e rest

/-- Mirrors `urls.sort((a, b) => new Date(b.lastExtracted) - new Date(a.lastExtracted))`:
stable sort by `lastExtracted` descending. -/
def sortByLastDesc : List Entry → List Entry
  | [] => []
  | e :: rest => insertDesc e (sortByLastDesc rest)

/-- Bound `maxUrls` from the source. -/
def maxUrls : Nat := 100

/-- Embeds `addExtractedUrl(url)` over an explicit storage state: upsert by `url`
(update first match, else push a fresh entry with `count = 1`), then, if the
length exceeds `maxUrls = 100`, sort by `lastExtracted` descending and
`splice(maxUrls)` (keep the first 100). -/
def addExtractedUrl (urls : List Entry) (url : String) (timestamp : Nat) :
    List Entry :=
  let urls' :=
    if urls.any (fun e => e.url = url) then
      bumpFirst url timestamp urls
    else
      urls ++ [{ url := url, firstExtracted := timestamp,
                 lastExtracted := timestamp, count := 1 }]
  if urls'.length > maxUrls then (sortByLastDesc urls').take maxUrls else urls'

/-- Sequentially record a list of `(url, timestamp)` pairs. -/
def recordAll : List (String × Nat) → List Entry → List Entry
  | [], s => s
  | (u, t) :: rest, s => recordAll rest (addExtractedUrl s u t)

/-! ## Category classifier (`popup.js` `detectCategory`). -/

/-- Occurrence of `sub` as a contiguous run starting at some position. -/
def listHasInfix (sub : List Char) : List Char → Bool
  | [] => sub.isPrefixOf []
  | c :: rest => sub.isPrefixOf (c :: rest) || listHasInfix sub rest

/-- Models `String.prototype.includes`: substring test. -/
def jsIncludes (s sub : String) : Bool :=
  listHasInfix sub.data s.data

/-- Models `str.toLowerCase()` (ASCII case folding; every string the source feeds
through it here is compared against ASCII keywords). -/
def jsToLower (s : String) : String :=
  ⟨s.data.map Char.toLower⟩

/-- The category keyword table, in the declared (= iteration) order of the
object literal in `detectCategory`. -/
def categoryPatterns : List (String × List String) :=
  [("architecture",
    ["architecture", "microservice", "design pattern", "system design",
     "scalability"]),
   ("testing", ["test", "testing", "tdd", "unit test", "integration", "e2e"]),
   ("security",
    ["security", "authentication", "authorization", "oauth", "jwt",
     "encryption"]),
   ("performance",
    ["performance", "optimization", "speed", "cache", "profiling"]),
   ("database", ["database", "sql", "nosql", "mongodb", "postgres", "redis"]),
   ("devops",
    ["devops", "docker", "kubernetes", "ci/cd", "deployment", "aws", "azure"]),
   ("frontend", ["react", "vue", "angular", "frontend", "css", "ui", "ux"]),
   ("backend",
    ["backend", "api", "rest", "graphql", "server", "node", "express"]),
   ("mobile", ["mobile", "ios", "android", "react native", "flutter"]),
   ("ai_ml", ["machine learning", "ai", "neural", "tensorflow",
              "data science"]),
   ("programming",
    ["typescript", "javascript", "python", "java", "c#", "rust", "go",
     "programming"])]

/-- Scan of the keyword table: the nested `for` loops return the first
category one of whose keywords occurs in the lowered title or URL. -/
def firstCategory (titleLower urlLower : String) :
    List (String × List String) → String
  | [] => "general"
  | (cat, keywords) :: rest =>
    if keywords.any
        (fun k => jsIncludes titleLower k || jsIncludes urlLower k) then
      cat
    else
      firstCategory titleLower urlLower rest

/-- Embeds `detectCategory(title, url)`. -/
def detectCategory (title url : String) : String :=
  firstCategory (jsToLower title) (jsToLower url) categoryPatterns

/-! ## Filename generation (`popup.js` `generateFilename`). -/

/-- Characters kept by `title.replace(/[^a-z0-9_.-]/gi, '_')`. -/
def filenameSafeChar (c : Char) : Bool :=
  ('a' ≤ c && c ≤ 'z') || ('A' ≤ c && c ≤ 'Z') || ('0' ≤ c && c ≤ '9') ||
    c = '_' || c = '.' || c = '-'

/-- Embeds `title.replace(/[^a-z0-9_.-]/gi, '_').toLowerCase()`. -/
def jsSafeTitle (title : String) : String :=
  ⟨(title.data.map (fun c => if filenameSafeChar c then c else '_')).map
      Char.toLower⟩

/-- Embeds `String(n).padStart(2, '0')`. -/
def pad2 (n : Nat) : String :=
  if n < 10 then "0" ++ toString n else toString n

/-- Renders `` `${y}-${pad(m)}-${pad(d)}` `` on a local calendar date
(`getFullYear`, `getMonth() + 1`, `getDate`). -/
def fmtDate (d : Nat × Nat × Nat) : String :=
  toString d.1 ++ "-" ++ pad2 d.2.1 ++ "-" ++ pad2 d.2.2

/-- The inputs to `generateFilename` taken from the extracted `pageContent`;
only `title` and `publicationDate` are consulted. -/
structure TitledPage where
  title : String
  publicationDate : Option String
  deriving Repr

/-- Embeds `generateFilename(pageContent, url)`.

`parseJsDate` is an oracle modelling `new Date(str)` together with the
`isNaN(getTime())` validity check: `some (y, m, d)` is a parsed local
calendar date, `none` an invalid date.  `today` models the ambient
`new Date()` current local date.  An empty-string `publicationDate` is falsy
in the source and so also falls back to `today`. -/
def generateFilename (parseJsDate : String → Option (Nat × Nat × Nat))
    (today : Nat × Nat × Nat) (pc : TitledPage) (url : String) : String :=
  let safeTitle := jsSafeTitle pc.title
  let dateStr :=
    match pc.publicationDate with
    | some s =>
      if s = "" then fmtDate today
      else
        match parseJsDate s with
        | some d => fmtDate d
        | none => fmtDate today
    | none => fmtDate today
  let category := detectCategory pc.title url
  dateStr ++ "_" ++ category ++ "_" ++
    (if safeTitle = "" then "document" else safeTitle) ++ ".md"

/-! ## YAML front-matter escaping (`createMetadata`'s `escapeYaml`,
identical in `popup.js` and `src/background.js`). -/

/-- The character class of the test `/[:"'|>{}[\]@`!%&*]/`
(braces and the backtick written by code point). -/
def yamlSpecialChars : List Char :=
  [':', '"', '\'', '|', '>', Char.ofNat 0x7b, Char.ofNat 0x7d, '[', ']',
   '@', Char.ofNat 0x60, '!', '%', '&', '*']

/-- Embeds `/[:"'|>{}[\]@`!%&*]/.test(str) || str.includes('\n')` (a one-character
`includes` is an occurrence test on the characters). -/
def jsTestSpecial (s : String) : Bool :=
  s.data.any (fun c => yamlSpecialChars.contains c) ||
    s.data.any (fun c => c = '\n')

/-- Embeds `str.replace(/"/g, '\\"')`. -/
def escQuotes (s : String) : String :=
  ⟨s.data.flatMap (fun c => if c = '"' then ['\\', '"'] else [c])⟩

/-- Embeds `escapeYaml(str)`: the empty string is falsy and returned as `''`;
a string containing a special character or a newline is double-quoted with
internal double quotes backslash-escaped; anything else passes through. -/
def escapeYaml (s : String) : String :=
  if s = "" then ""
  else if jsTestSpecial s then "\"" ++ escQuotes s ++ "\""
  else s

/-- Embeds `formatYamlArray(arr)`. -/
def formatYamlArray (arr : List String) : String :=
  if arr = [] then "[]"
  else "[" ++ String.intercalate ", " (arr.map escapeYaml) ++ "]"

/-- Spec-side definition for the refinement statement of the escaping rule:
the characters the spec lists as forcing double-quoting
(`: " ' | > { } [ ] @ ` ! % & *`, braces and backtick by code point). -/
def quotingTriggerChars : List Char :=
  [':', '"', '\'', '|', '>', Char.ofNat 0x7b, Char.ofNat 0x7d, '[', ']',
   '@', Char.ofNat 0x60, '!', '%', '&', '*']

/-- Spec-side condition: the string contains a newline or at least one of
the listed characters. -/
def specNeedsQuoting (s : String) : Bool :=
  s.data.any (fun c => c = '\n' || quotingTriggerChars.contains c)

/-! ## Tolerant response parsing (`src/background.js`
`improveMarkdownWithGemini`, lines 178–357).

The regular expressions of the source are linear patterns: a (case-
insensitive) literal label, optional single characters (`s?`, `:?`), a
greedy `\s*`, and one capturing group.  They are embedded as lists of
pattern atoms run by a small backtracking matcher with JavaScript
semantics: leftmost starting position first, greedy quantifiers with
backtracking. -/

/-- JavaScript's `\s` character class. -/
def jsWs (c : Char) : Bool :=
  c = ' ' || c = '\t' || c = '\n' || c = '\x0b' || c = '\x0c' || c = '\r' ||
    c.toNat = 0xa0 || c.toNat = 0x1680 ||
    (0x2000 ≤ c.toNat && c.toNat ≤ 0x200a) ||
    c.toNat = 0x2028 || c.toNat = 0x2029 || c.toNat = 0x202f ||
    c.toNat = 0x205f || c.toNat = 0x3000 || c.toNat = 0xfeff

/-- Embeds `String.prototype.trim()` on a character list. -/
def jsTrimL (l : List Char) : List Char :=
  ((l.dropWhile jsWs).reverse.dropWhile jsWs).reverse

/-- Embeds `String.prototype.trim()`. -/
def jsTrimS (s : String) : String :=
  ⟨jsTrimL s.data⟩

/-- One atom of a linear pattern. -/
inductive PAtom where
  /-- atom: a case-insensitive literal character (stored lowered) -/
  | lit (c : Char)
  /-- atom: a single-character class -/
  | cls (p : Char → Bool)
  /-- atom: an optional case-insensitive literal character (greedy) -/
  | opt (c : Char)
  /-- atom: greedy `\s*` -/
  | ws

/-- Greedy character-class star with backtracking: the continuation is tried
after the maximal munch first, then after successively shorter prefixes. -/
def starThen {α : Type} (p : Char → Bool) (k : List Char → Option α) :
    List Char → Option α
  | [] => k []
  | c :: rest =>
    if p c then (starThen p k rest).orElse (fun _ => k (c :: rest))
    else k (c :: rest)

/-- Run a list of atoms at the current position, handing the remaining text
to the tail matcher `k` (which produces the capture). -/
def runAtoms (k : List Char → Option (List Char)) :
    List PAtom → List Char → Option (List Char)
  | [], l => k l
  | .lit c :: atoms, l =>
    match l with
    | [] => none
    | x :: rest => if x.toLower = c then runAtoms k atoms rest else none
  | .cls p :: atoms, l =>
    match l with
    | [] => none
    | x :: rest => if p x then runAtoms k atoms rest else none
  | .opt c :: atoms, l =>
    match l with
    | [] => runAtoms k atoms []
    | x :: rest =>
      if x.toLower = c then
        (runAtoms k atoms rest).orElse (fun _ => runAtoms k atoms (x :: rest))
      else runAtoms k atoms (x :: rest)
  | .ws :: atoms, l => starThen jsWs (runAtoms k atoms) l

/-- Models `text.match(pattern)`: try the pattern at position 0, then at each later
starting position; the first position with a match wins. -/
def searchPattern (atoms : List PAtom) (k : List Char → Option (List Char)) :
    List Char → Option (List Char)
  | [] => runAtoms k atoms []
  | c :: rest =>
    (runAtoms k atoms (c :: rest)).orElse
      (fun _ => searchPattern atoms k rest)

/-- Tail `\[([^\]]*)\]`: a literal `[`, a capture of non-`]` characters,
then a literal `]`. -/
def bracketTail (l : List Char) : Option (List Char) :=
  match l with
  | '[' :: rest =>
    let cap := rest.takeWhile (fun c => c ≠ ']')
    match rest.dropWhile (fun c => c ≠ ']') with
    | ']' :: _ => some cap
    | _ => none
  | _ => none

/-- Tail `([^\n]+)`: a non-empty greedy capture of non-newline characters
(nothing of the pattern follows the group). -/
def bareLineTail (l : List Char) : Option (List Char) :=
  let cap := l.takeWhile (fun c => c ≠ '\n')
  if cap = [] then none else some cap

/-- Tail `(alt₁|alt₂|…)` of case-insensitive literal alternatives, tried in
order; the capture is the text actually matched. -/
def altTail (alts : List (List Char)) (l : List Char) : Option (List Char) :=
  match alts with
  | [] => none
  | a :: rest =>
    if (a.map Char.toLower).isPrefixOf (l.map Char.toLower) then
      some (l.take a.length)
    else altTail rest l

/-- Tail `(.*)` under the `s` flag: capture everything to the end. -/
def restTail (l : List Char) : Option (List Char) :=
  some l

/-- A case-insensitive literal label as `lit` atoms. -/
def litAtoms (label : String) : List PAtom :=
  label.data.map (fun c => PAtom.lit c.toLower)

/-- Pattern `/## Metadata\n([\s\S]*?)\n\n## Content/` (case-sensitive): at the
current position, a lazy capture up to the closest following
`\n\n## Content`. -/
def lazyUntil (stop : List Char) : List Char → Option (List Char)
  | [] => if stop.isPrefixOf ([] : List Char) then some [] else none
  | c :: rest =>
    if stop.isPrefixOf (c :: rest) then some []
    else (lazyUntil stop rest).map (fun cap => c :: cap)

/-- Leftmost match of the primary `## Metadata … ## Content` structure,
returning the captured metadata section. -/
def metadataMatch : List Char → Option (List Char)
  | [] => none
  | c :: rest =>
    let here :=
      if ("## Metadata\n".data.isPrefixOf (c :: rest)) then
        lazyUntil "\n\n## Content".data ((c :: rest).drop 12)
      else none
    here.orElse (fun _ => metadataMatch rest)

/-- Pattern `/## Content\n([\s\S]*)/`: everything after the first occurrence of
`## Content\n`. -/
def contentMatch : List Char → Option (List Char)
  | [] => none
  | c :: rest =>
    if ("## Content\n".data.isPrefixOf (c :: rest)) then
      some ((c :: rest).drop 11)
    else contentMatch rest

/-- Embeds `String.prototype.split(',')` on a character list. -/
def splitComma : List Char → List (List Char)
  | [] => [[]]
  | c :: rest =>
    if c = ',' then [] :: splitComma rest
    else
      match splitComma rest with
      | g :: gs => (c :: g) :: gs
      | [] => [[c]]

/-- Lower a character list (for the `.toLowerCase() !== "none"` tests). -/
def lowerL (l : List Char) : List Char :=
  l.map Char.toLower

/-- Embeds `.split(',').map(x => x.trim()).filter(x => x && x.toLowerCase() !== 'none')`
applied to a capture. -/
def listFromCapture (cap : List Char) : List String :=
  ((splitComma cap).map jsTrimL).filterMap
    (fun item =>
      if item ≠ [] ∧ lowerL item ≠ "none".data then some ⟨item⟩ else none)

/-- A primary-branch list field, e.g.
`metadataText.match(/Technologies:\s*\[([^\]]*)\]/i)` guarded by
`match && match[1] && match[1].toLowerCase() !== "none"`; on a failed guard
the field keeps its initial `[]`. -/
def primaryListField (label : String) (metadataText : List Char) :
    List String :=
  match searchPattern (litAtoms label ++ [PAtom.ws]) bracketTail
      metadataText with
  | some cap =>
    if cap ≠ [] ∧ lowerL cap ≠ "none".data then listFromCapture cap else []
  | none => []

/-- The fallback branch's per-field loop over its two pattern variants:
a guarded match assigns the filtered items and breaks only when the result
is non-empty; a failed guard leaves the accumulator untouched. -/
def fallbackLoop (full : List Char) :
    List (List Char → Option (List Char)) → List String → List String
  | [], acc => acc
  | p :: ps, acc =>
    match p full with
    | some cap =>
      if cap ≠ [] ∧ lowerL cap ≠ "none".data then
        let items :=
          if cap.contains '[' then
            splitComma (cap.filter (fun c => c ≠ '[' ∧ c ≠ ']'))
          else splitComma cap
        let res := (items.map jsTrimL).filterMap
          (fun item =>
            if item ≠ [] ∧ lowerL item ≠ "none".data then some (⟨item⟩ : String)
            else none)
        if res ≠ [] then res else fallbackLoop full ps res
      else fallbackLoop full ps acc
    | none => fallbackLoop full ps acc

/-- The two fallback pattern variants for a field: the bracketed list
`…\s*\[([^\]]*)\]` first, then the bare line `…\s*([^\n]+)`. -/
def fallbackField (labelAtoms : List PAtom) (full : List Char) :
    List String :=
  fallbackLoop full
    [searchPattern (labelAtoms ++ [PAtom.ws]) bracketTail,
     searchPattern (labelAtoms ++ [PAtom.ws]) bareLineTail] []

/-- Label `/Technologies?:?/i`. -/
def techLabel : List PAtom :=
  litAtoms "technologie" ++ [PAtom.opt 's', PAtom.opt ':']

/-- Label `/Programming[_\s]Languages?:?/i`. -/
def langLabel : List PAtom :=
  litAtoms "programming" ++ [PAtom.cls (fun c => c = '_' || jsWs c)] ++
    litAtoms "language" ++ [PAtom.opt 's', PAtom.opt ':']

/-- Label `/Tags?:?/i`. -/
def tagsLabel : List PAtom :=
  litAtoms "tag" ++ [PAtom.opt 's', PAtom.opt ':']

/-- Label `/Key[_\s]Concepts?:?/i`. -/
def conceptsLabel : List PAtom :=
  litAtoms "key" ++ [PAtom.cls (fun c => c = '_' || jsWs c)] ++
    litAtoms "concept" ++ [PAtom.opt 's', PAtom.opt ':']

/-- The structured result assembled at the end of
`improveMarkdownWithGemini` (the `finalMarkdown` object). -/
structure GeminiData where
  technologies : List String
  programmingLanguages : List String
  tags : List String
  keyConcepts : List String
  codeExamples : Bool
  difficultyLevel : String
  summary : String
  content : String
  deriving DecidableEq, Repr

/-- The response-parsing slice of `improveMarkdownWithGemini`
(lines 178–357): primary `## Metadata … ## Content` parse, else the
fallback parse of the four list fields; `content` is the trimmed
`## Content` capture, else the whole response text. -/
def parseGeminiText (text : String) : GeminiData :=
  let l := text.data
  let content :=
    match contentMatch l with
    | some cap => (⟨jsTrimL cap⟩ : String)
    | none => text
  match metadataMatch l with
  | some mt =>
    { technologies := primaryListField "Technologies:" mt
      programmingLanguages := primaryListField "Programming_Languages:" mt
      tags := primaryListField "Tags:" mt
      keyConcepts := primaryListField "Key_Concepts:" mt
      codeExamples :=
        match searchPattern (litAtoms "Code_Examples:" ++ [PAtom.ws])
            (altTail ["yes".data, "no".data]) mt with
        | some cap => lowerL cap = "yes".data
        | none => false
      difficultyLevel :=
        match searchPattern (litAtoms "Difficulty_Level:" ++ [PAtom.ws])
            (altTail ["beginner".data, "intermediate".data,
                      "advanced".data]) mt with
        | some cap => (⟨lowerL cap⟩ : String)
        | none => "intermediate"
      summary :=
        match searchPattern (litAtoms "Summary:" ++ [PAtom.ws]) restTail
            mt with
        | some cap => (⟨jsTrimL cap⟩ : String)
        | none => ""
      content := content }
  | none =>
    { technologies := fallbackField techLabel l
      programmingLanguages := fallbackField langLabel l
      tags := fallbackField tagsLabel l
      keyConcepts := fallbackField conceptsLabel l
      codeExamples := false
      difficultyLevel := "intermediate"
      summary := ""
      content := content }

/-! ## Front-matter synthesis (`createMetadata`, identical in `popup.js`
and `src/background.js`). -/

/-- An inline image sample of the extracted page content. -/
structure ImageSample where
  data : String
  mimeType : String
  alt : String
  src : String
  deriving DecidableEq, Repr

/-- The slice of the extracted `pageContent` the background pipeline
consults. -/
structure PageContent where
  title : String
  html : String
  author : String
  publicationDate : Option String
  images : List ImageSample
  deriving DecidableEq, Repr

/-- Models `new URL(url).hostname` for an absolute URL: the authority after
`://` up to the first `/`, `:`, `?` or `#` (the sources only feed tab URLs
through it). -/
def hostnameOf (url : String) : String :=
  let rec afterScheme : List Char → List Char
    | [] => []
    | c :: rest =>
      if "://".data.isPrefixOf (c :: rest) then (c :: rest).drop 3
      else afterScheme rest
  ⟨(afterScheme url.data).takeWhile
      (fun c => c ≠ '/' ∧ c ≠ ':' ∧ c ≠ '?' ∧ c ≠ '#')⟩

/-- Embeds `summary.replace(/\n/g, "\n  ")`. -/
def indentSummary (s : String) : String :=
  ⟨s.data.flatMap (fun c => if c = '\n' then ['\n', ' ', ' '] else [c])⟩

/-- Embeds `createMetadata(pageContent, url, category, geminiData)`.

`dateCapturedISO` models `new Date().toISOString()`; `isoOf` models
`d => new Date(d).toISOString()` on the page's publication-date string
(the sources call it only when `publicationDate` is truthy). -/
def createMetadata (pc : PageContent) (url : String) (category : String)
    (geminiData : Option GeminiData) (dateCapturedISO : String)
    (isoOf : String → String) : String :=
  let technologies := match geminiData with
    | some g => g.technologies
    | none => []
  let programmingLanguages := match geminiData with
    | some g => g.programmingLanguages
    | none => []
  let tags := match geminiData with
    | some g => g.tags
    | none => []
  let keyConcepts := match geminiData with
    | some g => g.keyConcepts
    | none => []
  let codeExamples := match geminiData with
    | some g => g.codeExamples
    | none => false
  let difficultyLevel := match geminiData with
    | some g => if g.difficultyLevel = "" then "unknown" else g.difficultyLevel
    | none => "unknown"
  let summary := match geminiData with
    | some g => g.summary
    | none => ""
  let datePublished := match pc.publicationDate with
    | some s => if s = "" then "unknown" else
        (if isoOf s = "" then "unknown" else isoOf s)
    | none => "unknown"
  "```yaml\n---\ntitle: " ++ escapeYaml pc.title ++
    "\nsource: " ++ url ++
    "\ndate_published: " ++ datePublished ++
    "\ndate_captured: " ++ dateCapturedISO ++
    "\ndomain: " ++ hostnameOf url ++
    "\nauthor: " ++ escapeYaml (if pc.author = "" then "Unknown" else pc.author) ++
    "\ncategory: " ++ category ++
    "\ntechnologies: " ++ formatYamlArray technologies ++
    "\nprogramming_languages: " ++ formatYamlArray programmingLanguages ++
    "\ntags: " ++ formatYamlArray tags ++
    "\nkey_concepts: " ++ formatYamlArray keyConcepts ++
    "\ncode_examples: " ++ (if codeExamples then "true" else "false") ++
    "\ndifficulty_level: " ++ difficultyLevel ++
    "\nsummary: |\n  " ++ indentSummary summary ++
    "\n---\n```\n\n# " ++ pc.title ++ "\n\n"

/-! ## Enrichment client and background pipeline (`src/background.js`
`improveMarkdownWithGemini`, `generateContentWithBackoff`,
`processAndDownloadWithGemini`). -/

/-- The outcome of one `fetch` of the generative endpoint. `candidateText`
is `data.candidates[0].content.parts[0].text` when the JSON body has the
expected structure, `none` otherwise; `bodyText` is `response.text()`. -/
structure FetchResponse where
  status : Nat
  candidateText : Option String
  bodyText : String
  deriving DecidableEq, Repr

/-- Models `Response.ok`: status in the 2xx range. -/
def responseOk (r : FetchResponse) : Bool :=
  200 ≤ r.status && r.status ≤ 299

/-- Constant `maxRetries` of `generateContentWithBackoff`. -/
def maxRetries : Nat := 8

/-- Constant `baseDelay` of `generateContentWithBackoff`, in seconds. -/
def baseDelay : ℚ := 2

/-- The retry loop of `generateContentWithBackoff`, instrumented: given
oracles for the successive `fetch` outcomes (`.error` is a thrown network
exception) and for `Math.random()`, it returns the number of fetch attempts
performed, the list of backoff delays awaited (in seconds), and the final
outcome — `some (.ok r)` when a response object is returned, `some (.error e)`
when the final network error is re-thrown, and `none` for the unreachable
fall-through of the `for` loop.  The `fuel` argument is the number of loop
iterations remaining, `maxRetries - attempt`. -/
def backoffAux (fetchO : Nat → Except String FetchResponse) (rand : Nat → ℚ) :
    Nat → Nat → Nat × List ℚ × Option (Except String FetchResponse)
  | attempt, 0 => (attempt, [], none)
  | attempt, fuel + 1 =>
    match fetchO attempt with
    | .ok r =>
      if responseOk r then (attempt + 1, [], some (.ok r))
      else if r.status = 503 then
        if attempt = maxRetries - 1 then (attempt + 1, [], some (.ok r))
        else
          let d := baseDelay * 2 ^ attempt + rand attempt
          let rec_result := backoffAux fetchO rand (attempt + 1) fuel
          (rec_result.1, d :: rec_result.2.1, rec_result.2.2)
      else (attempt + 1, [], some (.ok r))
    | .error e =>
      if attempt = maxRetries - 1 then (attempt + 1, [], some (.error e))
      else
        let d := baseDelay * 2 ^ attempt + rand attempt
        let rec_result := backoffAux fetchO rand (attempt + 1) fuel
        (rec_result.1, d :: rec_result.2.1, rec_result.2.2)

/-- Embeds `generateContentWithBackoff(model, apiKey, parts)`: the loop starting at
attempt 0 with `maxRetries` iterations available. -/
def generateContentWithBackoff (fetchO : Nat → Except String FetchResponse)
    (rand : Nat → ℚ) : Nat × List ℚ × Option (Except String FetchResponse) :=
  backoffAux fetchO rand 0 maxRetries

/-- The value resolved by `improveMarkdownWithGemini` on success. -/
structure ImproveResult where
  improvedMarkdown : GeminiData
  deriving DecidableEq, Repr

/-- Embeds `improveMarkdownWithGemini(markdown, apiKey, images, model)` with the
outcome of `generateContentWithBackoff` supplied as `net` (`.error` is a
thrown network error).  A missing API key (`!apiKey`, i.e. the empty
string) throws before any network activity; a non-2xx response or an
unexpectedly shaped body throws; otherwise the response text is parsed.
`images` and `model` only shape the outgoing request. -/
def improveMarkdownWithGemini (markdown apiKey : String)
    (images : List ImageSample) (model : String)
    (net : Except String FetchResponse) : Except String ImproveResult :=
  if apiKey = "" then .error "Gemini API key not configured"
  else
    match net with
    | .error e => .error e
    | .ok r =>
      if !responseOk r then
        .error ("Gemini API error: " ++ toString r.status ++ " - " ++
          r.bodyText)
      else
        match r.candidateText with
        | none => .error "Invalid response structure from Gemini API"
        | some t =>
          let _ := markdown
          let _ := images
          let _ := model
          .ok { improvedMarkdown := parseGeminiText t }

/-- The `processAndDownload` message payload. -/
structure DownloadRequest where
  pageContent : PageContent
  url : String
  category : String
  markdown : String
  filename : String
  apiKey : String
  model : String
  deriving Repr

/-- The observable effects of one background pipeline run, in the order the
source performs them: files handed to `browser.downloads.download`
(filename, content), the extraction-history state after the run, the
notifications shown (title, message), the `processingComplete` runtime
messages (success flag, filename on success / error message on failure),
and the promise outcome. -/
structure ProcessResult where
  downloads : List (String × String)
  history : List Entry
  notifications : List (String × String)
  completion : List (Bool × String)
  outcome : Except String Unit
  deriving Repr

/-- Embeds `processAndDownloadWithGemini(request)` over explicit state: `net` is the
backoff outcome, `histBefore` the stored history, `nowTs` the history
timestamp, `nowISO` the captured-at instant, `isoOf` the publication-date
re-encoder.  The `try` block enriches, synthesizes (substituting the
pre-enrichment markdown when the enriched content trims to empty), triggers
the download, records history and notifies; the `catch` block shows an
`Extraction Failed` notification, reports failure to the popup and
re-throws — it performs no download and leaves history untouched. -/
def processAndDownloadWithGemini (req : DownloadRequest)
    (net : Except String FetchResponse) (histBefore : List Entry)
    (nowTs : Nat) (nowISO : String) (isoOf : String → String) :
    ProcessResult :=
  match improveMarkdownWithGemini req.markdown req.apiKey
      req.pageContent.images req.model net with
  | .error e =>
    { downloads := []
      history := histBefore
      notifications := [("Extraction Failed", "Error: " ++ e)]
      completion := [(false, e)]
      outcome := .error e }
  | .ok result =>
    let gd := result.improvedMarkdown
    let enrichedMetadata :=
      createMetadata req.pageContent req.url req.category (some gd) nowISO
        isoOf
    let contentToUse :=
      if jsTrimS gd.content = "" then req.markdown else gd.content
    let finalContent := enrichedMetadata ++ contentToUse
    { downloads := [(req.filename, finalContent)]
      history := addExtractedUrl histBefore req.url nowTs
      notifications :=
        [("Page Extraction Complete",
          "File \"" ++ req.filename ++ "\" has been downloaded successfully.")]
      completion := [(true, req.filename)]
      outcome := .ok () }

/-! ## Concrete inputs used by witnesses and counterexamples. -/

/-- A permanently overloaded response. -/
def resp503 : FetchResponse := ⟨503, none, "model overloaded"⟩

/-- A fresh history entry as produced by the insert branch. -/
def freshEntry (p : String × Nat) : Entry :=
  { url := p.1, firstExtracted := p.2, lastExtracted := p.2, count := 1 }

/-- A list of 101 sequential records of distinct URLs at strictly increasing times. -/
def hundredOnePairs : List (String × Nat) :=
  (List.range 101).map (fun i => ("u" ++ toString i, i))

/-- A request whose enrichment is doomed: no API key configured. -/
def reqNoKey : DownloadRequest :=
  { pageContent := { title := "T", html := "<p>x</p>", author := "A",
                     publicationDate := none, images := [] }
    url := "https://x.test/a"
    category := "general"
    markdown := "# body"
    filename := "f.md"
    apiKey := ""
    model := "gemini-2.5-pro" }

/-- The same request with a key configured. -/
def reqWithKey : DownloadRequest :=
  { reqNoKey with apiKey := "k" }

/-- A well-formed response whose `## Content` section is whitespace-only. -/
def emptyContentResponse : FetchResponse :=
  ⟨200, some "## Content\n   \n", ""⟩

/-! # Theorems -/

/-! ## History store lemmas. -/

theorem bumpFirst_mid (u : String) (t : Nat) (e : Entry)
    (pre post : List Entry) (hpre : ∀ f ∈ pre, f.url ≠ u) (hu : e.url = u) :
    bumpFirst u t (pre ++ e :: post) =
      pre ++ { e with lastExtracted := t,
                      count := (if e.count = 0 then 1 else e.count) + 1 }
        :: post := by
  induction pre with
  | nil => simp [bumpFirst, hu]
  | cons f rest ih =>
    have hf : f.url ≠ u := hpre f (by simp)
    simp only [List.cons_append, bumpFirst, if_neg hf, List.append_eq]
    rw [ih (fun g hg => hpre g (by simp [hg]))]

theorem any_url_eq_false {s : List Entry} {u : String}
    (habs : ∀ f ∈ s, f.url ≠ u) :
    s.any (fun e => e.url = u) = false := by
  simp only [List.any_eq_false, decide_eq_true_eq]
  exact habs

theorem addExtractedUrl_absent (s : List Entry) (u : String) (t : Nat)
    (habs : ∀ f ∈ s, f.url ≠ u) (hlen : s.length + 1 ≤ maxUrls) :
    addExtractedUrl s u t = s ++ [freshEntry (u, t)] := by
  have hany := any_url_eq_false habs
  have hlen2 : ¬ (s ++
      [({ url := u, firstExtracted := t, lastExtracted := t,
          count := 1 } : Entry)]).length > maxUrls := by
    simp only [List.length_append, List.length_cons, List.length_nil]
    omega
  unfold addExtractedUrl
  rw [hany]
  simp only [Bool.false_eq_true, if_false, freshEntry]
  rw [if_neg hlen2]

theorem recordAll_append (xs ys : List (String × Nat)) (s : List Entry) :
    recordAll (xs ++ ys) s = recordAll ys (recordAll xs s) := by
  induction xs generalizing s with
  | nil => rfl
  | cons p rest ih =>
    cases p
    simp only [List.cons_append, recordAll]
    exact ih _

theorem recordAll_fresh (pairs : List (String × Nat)) (s : List Entry)
    (hnodup : (pairs.map Prod.fst).Nodup)
    (hdisj : ∀ p ∈ pairs, ∀ e ∈ s, e.url ≠ p.1)
    (hlen : s.length + pairs.length ≤ maxUrls) :
    recordAll pairs s = s ++ pairs.map freshEntry := by
  induction pairs generalizing s with
  | nil => simp [recordAll]
  | cons p rest ih =>
    obtain ⟨u, t⟩ := p
    simp only [recordAll]
    rw [addExtractedUrl_absent s u t
      (fun e he => hdisj (u, t) (by simp) e he)
      (by simp at hlen; omega)]
    rw [ih (s ++ [freshEntry (u, t)])]
    · simp [freshEntry]
    · exact (List.nodup_cons.mp (by simpa using hnodup)).2
    · intro q hq e he
      rcases List.mem_append.mp he with hs | hf
      · exact hdisj q (by simp [hq]) e hs
      · have heq : e = freshEntry (u, t) := by simpa using hf
        have hne : u ∉ (rest.map Prod.fst) :=
          (List.nodup_cons.mp (by simpa using hnodup)).1
        simp only [heq, freshEntry]
        intro hcontra
        exact hne (by rw [hcontra]; exact List.mem_map_of_mem Prod.fst hq)
    · simp at hlen ⊢; omega

theorem insertDesc_of_lt (e : Entry) (l : List Entry)
    (h : ∀ f ∈ l, e.lastExtracted < f.lastExtracted) :
    insertDesc e l = l ++ [e] := by
  induction l with
  | nil => rfl
  | cons f rest ih =>
    have : ¬ f.lastExtracted ≤ e.lastExtracted := by
      have := h f (by simp)
      omega
    simp only [insertDesc, if_neg this]
    rw [ih (fun g hg => h g (by simp [hg]))]
    rfl

theorem sortByLastDesc_of_increasing (l : List Entry)
    (h : l.Pairwise (fun a b => a.lastExtracted < b.lastExtracted)) :
    sortByLastDesc l = l.reverse := by
  induction l with
  | nil => rfl
  | cons e rest ih =>
    have hp := List.pairwise_cons.mp h
    simp only [sortByLastDesc]
    rw [ih hp.2, insertDesc_of_lt e rest.reverse
      (fun f hf => hp.1 f (List.mem_reverse.mp hf))]
    simp

/-- Claim C5: the history record operation is an upsert keyed by URL —
recording an absent URL appends one entry with `count = 1` and
`firstExtracted = lastExtracted = now`; recording the same URL again
updates that entry's `lastExtracted` and bumps `count` to 2 without
creating a duplicate entry for the URL. -/
theorem claim_C5_history_upsert (s : List Entry) (u : String) (t1 t2 : Nat)
    (habs : ∀ f ∈ s, f.url ≠ u) (hlen : s.length ≤ 99) :
    addExtractedUrl s u t1 =
      s ++ [{ url := u, firstExtracted := t1, lastExtracted := t1,
              count := 1 }] ∧
    addExtractedUrl (addExtractedUrl s u t1) u t2 =
      s ++ [{ url := u, firstExtracted := t1, lastExtracted := t2,
              count := 2 }] ∧
    ((addExtractedUrl (addExtractedUrl s u t1) u t2).filter
        (fun e => e.url = u)).length = 1 := by
  have h1 : addExtractedUrl s u t1 = s ++ [freshEntry (u, t1)] :=
    addExtractedUrl_absent s u t1 habs (by simp only [maxUrls]; omega)
  have hany : (s ++ [freshEntry (u, t1)]).any (fun e => e.url = u) = true := by
    rw [List.any_eq_true]
    exact ⟨freshEntry (u, t1), by simp, by simp [freshEntry]⟩
  have hbump : bumpFirst u t2 (s ++ [freshEntry (u, t1)]) =
      s ++ [{ url := u, firstExtracted := t1, lastExtracted := t2,
              count := 2 }] := by
    have := bumpFirst_mid u t2 (freshEntry (u, t1)) s [] habs
      (by simp [freshEntry])
    simpa [freshEntry] using this
  have h2 : addExtractedUrl (s ++ [freshEntry (u, t1)]) u t2 =
      s ++ [{ url := u, firstExtracted := t1, lastExtracted := t2,
              count := 2 }] := by
    unfold addExtractedUrl
    rw [hany]
    simp only [if_true, hbump]
    rw [if_neg (by simp only [List.length_append, List.length_cons,
      List.length_nil, maxUrls]; omega)]
  refine ⟨h1, by rw [h1, h2], ?_⟩
  rw [h1, h2, List.filter_append]
  have hnil : s.filter (fun e => e.url = u) = [] := by
    rw [List.filter_eq_nil_iff]
    intro e he
    simpa using habs e he
  simp [hnil]

/-- Claim C10: recording a URL that already has an entry, on a history of
at most 100 entries, rewrites only that entry's `lastExtracted` and
`count`; its `url` and `firstExtracted`, and every other entry (before and
after it), are left exactly as they were. -/
theorem claim_C10_record_frame (pre : List Entry) (e : Entry)
    (post : List Entry) (u : String) (t : Nat)
    (hpre : ∀ f ∈ pre, f.url ≠ u) (hu : e.url = u)
    (hlen : (pre ++ e :: post).length ≤ 100) :
    addExtractedUrl (pre ++ e :: post) u t =
      pre ++ { e with lastExtracted := t,
                      count := (if e.count = 0 then 1 else e.count) + 1 }
        :: post := by
  have hany : (pre ++ e :: post).any (fun f => f.url = u) = true := by
    rw [List.any_eq_true]
    exact ⟨e, by simp, by simp [hu]⟩
  have hlen2 : ¬ (pre ++ ({ e with lastExtracted := t, count := (if e.count = 0 then 1 else e.count) + 1 } : Entry) :: post).length > maxUrls := by
    simp only [List.length_append, List.length_cons, maxUrls]
    simp only [List.length_append, List.length_cons] at hlen
    omega
  unfold addExtractedUrl
  rw [hany]
  simp only [if_true]
  rw [bumpFirst_mid u t e pre post hpre hu]
  rw [if_neg hlen2]

/-- Claim C4: starting from an empty history, sequentially recording 101
distinct URLs at strictly increasing timestamps leaves exactly 100
entries — the most recently extracted 100, ordered by `lastExtracted`
descending; the oldest (first-recorded) URL is evicted. -/
theorem claim_C4_history_bound (pairs : List (String × Nat))
    (hlen : pairs.length = 101)
    (hnodup : (pairs.map Prod.fst).Nodup)
    (hmono : (pairs.map Prod.snd).Pairwise (· < ·)) :
    (recordAll pairs []).length = 100 ∧
    recordAll pairs [] = ((pairs.map freshEntry).reverse).take 100 ∧
    (recordAll pairs []).map Entry.url =
      ((pairs.map Prod.fst).drop 1).reverse := by
  obtain ⟨q, hq⟩ : ∃ q, pairs.drop 100 = [q] := by
    have h1 : (pairs.drop 100).length = 1 := by
      simp [List.length_drop, hlen]
    match h : pairs.drop 100 with
    | [q] => exact ⟨q, rfl⟩
    | [] => rw [h] at h1; simp at h1
    | _ :: _ :: _ => rw [h] at h1; simp at h1
  have hsplit : pairs.take 100 ++ [q] = pairs := by
    rw [← hq]; exact List.take_append_drop 100 pairs
  have hfst : (pairs.take 100).map Prod.fst ++ [q.1] = pairs.map Prod.fst := by
    have h := congrArg (List.map Prod.fst) hsplit
    simpa using h
  have hxlen : (pairs.take 100).length = 100 := by
    simp [List.length_take, hlen]
  have hstep1 : recordAll (pairs.take 100) [] =
      (pairs.take 100).map freshEntry := by
    rw [recordAll_fresh]
    · simp
    · rw [List.map_take]
      exact (List.take_sublist 100 _).nodup hnodup
    · intro p _ e he
      simp at he
    · simp only [List.length_nil, hxlen, maxUrls]
      omega
  have hdisj : ∀ e ∈ (pairs.take 100).map freshEntry, e.url ≠ q.1 := by
    intro e he hcontra
    obtain ⟨p, hp, hpe⟩ := List.mem_map.mp he
    have h1 : p.1 = q.1 := by
      rw [← hcontra, ← hpe]
      rfl
    have hnd : ((pairs.take 100).map Prod.fst ++ [q.1]).Nodup := by
      rw [hfst]; exact hnodup
    have := (List.disjoint_of_nodup_append hnd)
      (List.mem_map_of_mem Prod.fst hp)
    simp [h1] at this
  have hall : (pairs.take 100).map freshEntry ++ [freshEntry q] =
      pairs.map freshEntry := by
    have h := congrArg (List.map freshEntry) hsplit
    simpa using h
  have hmain : recordAll pairs [] =
      ((pairs.map freshEntry).reverse).take 100 := by
    have hrec : recordAll pairs [] =
        addExtractedUrl ((pairs.take 100).map freshEntry) q.1 q.2 := by
      conv_lhs => rw [← hsplit]
      rw [recordAll_append, hstep1]
      rfl
    rw [hrec]
    unfold addExtractedUrl
    rw [any_url_eq_false hdisj]
    simp only [Bool.false_eq_true, if_false]
    have hfr : ({ url := q.1, firstExtracted := q.2, lastExtracted := q.2, count := 1 } : Entry) = freshEntry q := rfl
    rw [hfr, hall]
    rw [if_pos (by simp [hlen, maxUrls])]
    congr 1
    apply sortByLastDesc_of_increasing
    rw [List.pairwise_map]
    have h2 := List.pairwise_map.mp hmono
    exact h2.imp (fun h => h)
  refine ⟨?_, hmain, ?_⟩
  · rw [hmain]
    simp [hlen]
  · rw [hmain, List.map_take, List.map_reverse, List.map_map]
    have hurl : (Entry.url ∘ freshEntry) = Prod.fst := by
      funext p; rfl
    rw [hurl, List.take_reverse]
    congr 2
    simp [hlen]

set_option maxHeartbeats 4000000 in
/-- Witness for C4: 101 concrete sequential records leave 100 entries, the
most recent 100 in descending order of `lastExtracted`. -/
theorem claim_C4_witness :
    (recordAll hundredOnePairs []).length = 100 ∧
    recordAll hundredOnePairs [] =
      ((hundredOnePairs.map freshEntry).reverse).take 100 ∧
    (recordAll hundredOnePairs []).map Entry.url =
      ((hundredOnePairs.map Prod.fst).drop 1).reverse :=
  claim_C4_history_bound hundredOnePairs (by decide) (by decide) (by decide)

/-- Witness for C5: recording `u9` twice on a one-entry history. -/
theorem claim_C5_witness :
    addExtractedUrl [(⟨"a", 0, 0, 1⟩ : Entry)] "u9" 1 =
      [⟨"a", 0, 0, 1⟩, ⟨"u9", 1, 1, 1⟩] ∧
    addExtractedUrl (addExtractedUrl [(⟨"a", 0, 0, 1⟩ : Entry)] "u9" 1)
        "u9" 2 =
      [⟨"a", 0, 0, 1⟩, ⟨"u9", 1, 2, 2⟩] ∧
    ((addExtractedUrl (addExtractedUrl [(⟨"a", 0, 0, 1⟩ : Entry)] "u9" 1)
        "u9" 2).filter (fun e => e.url = "u9")).length = 1 :=
  claim_C5_history_upsert _ "u9" 1 2 (by decide) (by decide)

/-- Witness for C10: a concrete update in the middle of a three-entry
history touches only the matched entry. -/
theorem claim_C10_witness :
    addExtractedUrl
        ([(⟨"a", 0, 0, 1⟩ : Entry)] ++ (⟨"b", 2, 3, 4⟩ : Entry) ::
          [(⟨"c", 5, 6, 7⟩ : Entry)]) "b" 9 =
      [(⟨"a", 0, 0, 1⟩ : Entry)] ++ (⟨"b", 2, 9, 5⟩ : Entry) ::
        [(⟨"c", 5, 6, 7⟩ : Entry)] :=
  claim_C10_record_frame _ _ _ "b" 9 (by decide) (by decide) (by decide)

/-- Claim C6: category classification is a deterministic first-match scan
of the keyword table in its declared order — the example title matches
`architecture` (even though `docker`, a `devops` keyword, also occurs in
it), and a title/URL with no keyword at all falls back to `general`. -/
theorem claim_C6_detectCategory_order :
    detectCategory "Building Microservice Architecture with Docker"
      "https://x.test/a" = "architecture" ∧
    jsIncludes (jsToLower "Building Microservice Architecture with Docker")
      "docker" = true ∧
    detectCategory "hello" "https://z.example/q" = "general" := by
  decide

/-- Claim C7: filename generation replaces every character outside
`[a-z0-9_.-]` by `_`, lower-cases, falls back to the current date when no
publication date is set and to the literal `document` when the sanitized
title is empty, and assembles `date_category_safeTitle.md`; on
`"C++ Tips: Part #1!"` with current date 2026-01-10 and a URL classified
`programming` this is exactly
`2026-01-10_programming_c___tips__part__1_.md` (for every date-parsing
oracle, which the `none` publication date never consults). -/
theorem claim_C7_generateFilename :
    ∀ parseJsDate : String → Option (Nat × Nat × Nat),
      generateFilename parseJsDate (2026, 1, 10)
          { title := "C++ Tips: Part #1!", publicationDate := none }
          "https://example.com/python-tips" =
        "2026-01-10_programming_c___tips__part__1_.md" ∧
      generateFilename parseJsDate (2026, 1, 10)
          { title := "", publicationDate := none } "https://z.example/q" =
        "2026-01-10_general_document.md" := by
  intro parseJsDate
  exact ⟨rfl, rfl⟩

theorem any_or_eq (l : List Char) (p q : Char → Bool) :
    (l.any p || l.any q) = l.any (fun c => q c || p c) := by
  induction l with
  | nil => rfl
  | cons c l ih =>
    simp only [List.any_cons]
    rw [← ih]
    cases p c <;> cases q c <;> simp

theorem jsTestSpecial_eq_spec (s : String) :
    jsTestSpecial s = specNeedsQuoting s :=
  any_or_eq s.data _ _

theorem length_le_flatMap (f : Char → List Char)
    (h : ∀ c, 1 ≤ (f c).length) (l : List Char) :
    l.length ≤ (l.flatMap f).length := by
  induction l with
  | nil => simp
  | cons c l ih =>
    rw [List.flatMap_cons, List.length_append, List.length_cons]
    have := h c
    omega

theorem escQuotes_length (s : String) :
    s.data.length ≤ (escQuotes s).data.length := by
  show s.data.length ≤ (s.data.flatMap _).length
  apply length_le_flatMap
  intro c
  dsimp only
  split <;> simp

/-- Claim C8: a string field is emitted double-quoted — with each internal
double quote backslash-escaped — exactly when it contains a newline or one
of the characters the spec lists; a string containing none of these is
emitted unchanged and unquoted. -/
theorem claim_C8_escapeYaml_iff (s : String) :
    escapeYaml s =
      (if specNeedsQuoting s then "\"" ++ escQuotes s ++ "\"" else s) ∧
    (escapeYaml s = "\"" ++ escQuotes s ++ "\"" ↔
      specNeedsQuoting s = true) := by
  have hcond := jsTestSpecial_eq_spec s
  have hmain : escapeYaml s =
      (if specNeedsQuoting s then "\"" ++ escQuotes s ++ "\"" else s) := by
    unfold escapeYaml
    by_cases hs : s = ""
    · subst hs
      rfl
    · rw [if_neg hs, hcond]
  refine ⟨hmain, ?_, ?_⟩
  · intro h
    by_contra hq
    have hq' : specNeedsQuoting s = false := by
      cases hqq : specNeedsQuoting s
      · rfl
      · exact absurd hqq hq
    rw [hmain, hq'] at h
    simp only [Bool.false_eq_true, if_false] at h
    have hlen := congrArg (fun x => x.data.length) h
    simp only [String.data_append, List.length_append, List.length_cons,
      List.length_nil] at hlen
    have hge := escQuotes_length s
    omega
  · intro h
    rw [hmain, h]
    simp

theorem backoffAux_all503 (fetchO : Nat → Except String FetchResponse)
    (rand : Nat → ℚ) (r : FetchResponse) (hr : r.status = 503)
    (hf : ∀ n, fetchO n = .ok r) :
    ∀ fuel attempt, attempt + fuel = maxRetries → 0 < fuel →
      backoffAux fetchO rand attempt fuel =
        (maxRetries,
         (List.range' attempt (fuel - 1)).map
           (fun n => baseDelay * 2 ^ n + rand n),
         some (.ok r)) := by
  have hok : responseOk r = false := by
    simp [responseOk, hr]
  intro fuel
  induction fuel with
  | zero =>
    intro attempt _ h0
    omega
  | succ f ih =>
    intro attempt hsum _
    simp only [backoffAux, hf attempt, hok, Bool.false_eq_true, if_false,
      hr, if_true]
    rcases Nat.eq_zero_or_pos f with hf0 | hfpos
    · subst hf0
      have hatt : attempt = maxRetries - 1 := by
        simp only [maxRetries] at hsum ⊢
        omega
      rw [if_pos hatt]
      simp [hatt, List.range', maxRetries]
    · have hatt : ¬ attempt = maxRetries - 1 := by
        simp only [maxRetries] at hsum ⊢
        omega
      rw [if_neg hatt]
      rw [ih (attempt + 1) (by omega) hfpos]
      obtain ⟨g, rfl⟩ : ∃ g, f = g + 1 := ⟨f - 1, by omega⟩
      simp [List.range'_succ]

/-- Claim C2: when the service answers HTTP 503 on every attempt, the
retry loop performs exactly 8 fetch attempts, the delay awaited before the
retry that follows attempt `n` (0-indexed) is `2 * 2^n` seconds plus the
jitter drawn for that attempt (which `Math.random()` keeps in `[0, 1)`),
and after the 8th attempt the failing response itself is returned — no 9th
attempt happens. -/
theorem claim_C2_backoff_terminates
    (fetchO : Nat → Except String FetchResponse) (rand : Nat → ℚ)
    (r : FetchResponse) (hr : r.status = 503)
    (hf : ∀ n, fetchO n = .ok r)
    (hrand : ∀ n, 0 ≤ rand n ∧ rand n < 1) :
    generateContentWithBackoff fetchO rand =
      (8, (List.range 7).map (fun n => 2 * 2 ^ n + rand n),
       some (.ok r)) ∧
    ∀ n, n < 7 →
      2 * 2 ^ n ≤ 2 * 2 ^ n + rand n ∧
      2 * 2 ^ n + rand n < 2 * 2 ^ n + 1 := by
  constructor
  · have h := backoffAux_all503 fetchO rand r hr hf maxRetries 0
      (by simp) (by simp [maxRetries])
    unfold generateContentWithBackoff
    rw [h]
    norm_num [maxRetries, baseDelay, List.range_eq_range']
  · intro n _
    have h := hrand n
    constructor
    · linarith [h.1]
    · linarith [h.2]

/-- Witness for C2: a concrete always-503 oracle with jitter 1/2 runs
exactly 8 attempts with delays 2·2ⁿ + 1/2 and returns the 503 response. -/
theorem claim_C2_witness :
    generateContentWithBackoff (fun _ => Except.ok resp503)
        (fun _ => (1 : ℚ) / 2) =
      (8, (List.range 7).map (fun n => 2 * 2 ^ n + (1 : ℚ) / 2),
       some (.ok resp503)) :=
  (claim_C2_backoff_terminates (fun _ => Except.ok resp503)
    (fun _ => (1 : ℚ) / 2) resp503 rfl (fun _ => rfl)
    (fun _ => ⟨by norm_num, by norm_num⟩)).1

/-- Counterexample to claim C1: a background run whose enrichment call
fails — here with the missing-API-key configuration error — triggers no
download at all; the `catch` block reports the failure and re-throws, so
enrichment failure does prevent delivery. -/
theorem claim_C1_counterexample :
    improveMarkdownWithGemini reqNoKey.markdown reqNoKey.apiKey
        reqNoKey.pageContent.images reqNoKey.model
        (Except.ok ⟨200, some "ok", ""⟩) =
      Except.error "Gemini API key not configured" ∧
    (processAndDownloadWithGemini reqNoKey (Except.ok ⟨200, some "ok", ""⟩)
        [] 0 "2026-01-10T00:00:00.000Z" id).downloads = [] ∧
    (processAndDownloadWithGemini reqNoKey (Except.ok ⟨200, some "ok", ""⟩)
        [] 0 "2026-01-10T00:00:00.000Z" id).outcome =
      Except.error "Gemini API key not configured" :=
  ⟨rfl, rfl, rfl⟩

/-- Claim C1 as amended: when the enrichment call of a background pipeline
run fails (including the missing-API-key error), the run aborts — nothing
is downloaded, history is untouched, an `Extraction Failed` notification
carries the error prefixed `Error:`, a failure `processingComplete`
message is sent, and the error is re-thrown.  Graceful fallback to the
pre-enrichment Markdown happens only on successful calls whose extracted
content is empty. -/
theorem claim_C1_enrichment_failure_aborts (req : DownloadRequest)
    (net : Except String FetchResponse) (histBefore : List Entry)
    (nowTs : Nat) (nowISO : String) (isoOf : String → String) (e : String)
    (h : improveMarkdownWithGemini req.markdown req.apiKey
        req.pageContent.images req.model net = Except.error e) :
    processAndDownloadWithGemini req net histBefore nowTs nowISO isoOf =
      { downloads := []
        history := histBefore
        notifications := [("Extraction Failed", "Error: " ++ e)]
        completion := [(false, e)]
        outcome := Except.error e } := by
  unfold processAndDownloadWithGemini
  rw [h]

/-- Witness for the amended C1: the concrete no-API-key run aborts with
the configuration error and performs no effects. -/
theorem claim_C1_witness :
    processAndDownloadWithGemini reqNoKey (Except.ok ⟨200, some "ok", ""⟩)
        [] 0 "2026-01-10T00:00:00.000Z" id =
      { downloads := []
        history := []
        notifications :=
          [("Extraction Failed", "Error: Gemini API key not configured")]
        completion := [(false, "Gemini API key not configured")]
        outcome := Except.error "Gemini API key not configured" } :=
  claim_C1_enrichment_failure_aborts reqNoKey _ [] 0 _ id _ rfl

/-- Claim C3: for every enrichment result whose extracted `## Content`
body is empty or whitespace-only, the background pipeline substitutes the
original pre-enrichment Markdown — the delivered artifact is the enriched
front-matter followed by exactly the original Markdown (hence non-empty
whenever the original is). -/
theorem claim_C3_empty_content_fallback (req : DownloadRequest)
    (net : Except String FetchResponse) (histBefore : List Entry)
    (nowTs : Nat) (nowISO : String) (isoOf : String → String)
    (gd : GeminiData)
    (h : improveMarkdownWithGemini req.markdown req.apiKey
        req.pageContent.images req.model net =
      Except.ok { improvedMarkdown := gd })
    (hempty : jsTrimS gd.content = "") :
    (processAndDownloadWithGemini req net histBefore nowTs nowISO
        isoOf).downloads =
      [(req.filename,
        createMetadata req.pageContent req.url req.category (some gd) nowISO
          isoOf ++ req.markdown)] ∧
    (req.markdown ≠ "" →
      createMetadata req.pageContent req.url req.category (some gd) nowISO
          isoOf ++ req.markdown ≠ "") := by
  constructor
  · unfold processAndDownloadWithGemini
    rw [h]
    simp [hempty]
  · intro hm hcontra
    apply hm
    have hdata := congrArg String.data hcontra
    simp only [String.data_append] at hdata
    exact String.ext (List.append_eq_nil.mp hdata).2

/-- Witness for C3: a concrete run whose remote response carries a
whitespace-only `## Content` section delivers the enriched front-matter
followed by the original Markdown. -/
theorem claim_C3_witness :
    (processAndDownloadWithGemini reqWithKey
        (Except.ok emptyContentResponse) [] 7 "NOW" id).downloads =
      [(reqWithKey.filename,
        createMetadata reqWithKey.pageContent reqWithKey.url
            reqWithKey.category
            (some (parseGeminiText "## Content\n   \n")) "NOW" id ++
          reqWithKey.markdown)] :=
  (claim_C3_empty_content_fallback reqWithKey (Except.ok emptyContentResponse)
    [] 7 "NOW" id (parseGeminiText "## Content\n   \n") rfl (by decide)).1

/-- Claim C9: on a response text lacking the primary
`## Metadata … ## Content` structure the fallback parser searches the full
text per list field, bracketed-list pattern before bare comma-separated
line, keeping the first non-empty non-`none` match; the bare line
`Tags: api, security` yields exactly `["api", "security"]` (split on
commas and trimmed) while the other list fields stay empty, and a
bracketed list anywhere wins over a bare line. -/
theorem claim_C9_fallback_parsing :
    metadataMatch ("Tags: api, security".data) = none ∧
    (parseGeminiText "Tags: api, security").tags = ["api", "security"] ∧
    (parseGeminiText "Tags: api, security").technologies = [] ∧
    (parseGeminiText "Tags: api, security").programmingLanguages = [] ∧
    (parseGeminiText "Tags: api, security").keyConcepts = [] ∧
    (parseGeminiText "Tags: [a] then Tags: b, c").tags = ["a"] := by
  decide

end PageInfo
